import Mathlib

/-!
Shallow embedding of the tic-tac-toe frontend
(`src/tic_tac_toe_frontend/src/App.js`).

The board is an ordered list of 9 cells (`'X'`, `'O'` or `null` in the
source, here `Option Mark`).  JS array indexing `squares[i]` (which yields
`undefined`, falsy, out of range) is embedded as `cellAt`, a `getD` with
default `none`.  The React component state (`board`, `xIsNext`, `gameMode`,
`isGameActive`, `status`, `winnerLine`, `aiThinking`) becomes the structure
`AppState`; the status strings are represented by the inductive `StatusMsg`
with one constructor per distinct message the source produces.  The
`useEffect` body (lines 110-147) becomes the pure function `runEffect`
together with `scheduleCond`, the condition under which it arms the
0.55 s computer-move timer, and `fireTimer`, the timer callback.  The
React re-render/cleanup discipline (any change of the effect dependencies
`board`, `xIsNext`, `gameMode` cancels a pending timer and re-runs the
effect) is captured by the event-step function `Session.step` on a session
that carries the app state plus a flag for a pending timer.
-/

namespace TicTacToe

/-- A mark placed on the board: `'X'` or `'O'` in the source. -/
inductive Mark
  | X
  | O
deriving DecidableEq

/-- One board cell: `null` (empty) or a mark. -/
abbrev Cell := Option Mark

/-- The `winner` field of the object returned by `calculateWinner`:
either one of the marks or the string `'draw'`. -/
inductive Winner
  | mark (m : Mark)
  | draw
deriving DecidableEq

/-- The object `{ winner, line }` returned by `calculateWinner`. -/
structure GameResult where
  winner : Winner
  line : List Nat
deriving DecidableEq

/-- The 8 fixed lines of `calculateWinner` (App.js lines 39-43), in the
source's order: rows, then columns, then diagonals. -/
def lines : List (Nat × Nat × Nat) :=
  [(0, 1, 2), (3, 4, 5), (6, 7, 8),
   (0, 3, 6), (1, 4, 7), (2, 5, 8),
   (0, 4, 8), (2, 4, 6)]

/-- JS indexing `squares[i]`: out-of-range access is `undefined`, which the
source only ever tests for truthiness, so it is embedded as `none`. -/
def cellAt (b : List Cell) (i : Nat) : Cell :=
  b.getD i none

/-- The `for (let [a, b, c] of lines)` loop of `calculateWinner`
(App.js lines 44-52): return on the first line whose three cells are
non-empty and identical. -/
def scanLines (b : List Cell) : List (Nat × Nat × Nat) → Option GameResult
  | [] => none
  | (x, y, z) :: rest =>
    match cellAt b x with
    | some m =>
      if cellAt b y = some m ∧ cellAt b z = some m then
        some ⟨Winner.mark m, [x, y, z]⟩
      else
        scanLines b rest
    | none => scanLines b rest

/-- `calculateWinner` (App.js lines 38-57): first winning line in scan
order, else draw when no cell is `null`, else no result. -/
def calculateWinner (b : List Cell) : Option GameResult :=
  match scanLines b lines with
  | some r => some r
  | none =>
    if (none : Cell) ∈ b then none
    else some ⟨Winner.draw, []⟩

/-- The test `calculateWinner(newB)?.winner === m`: optional chaining on a
`null` result is `undefined`, which compares unequal to any mark. -/
def winnerIs (b : List Cell) (m : Mark) : Bool :=
  match calculateWinner b with
  | some r => r.winner == Winner.mark m
  | none => false

/-- `findBestMove` (App.js lines 83-107): win now, else block `X`, else
center, else first free corner of `[0,2,6,8]`, else first free cell, else
`null`.  Each `for` loop over `i = 0..8` that returns the first index
satisfying its test is embedded as `find?` over `List.range 9`. -/
def findBestMove (b : List Cell) : Option Nat :=
  match (List.range 9).find? (fun i =>
      cellAt b i == none && winnerIs (b.set i (some Mark.O)) Mark.O) with
  | some i => some i
  | none =>
    match (List.range 9).find? (fun i =>
        cellAt b i == none && winnerIs (b.set i (some Mark.X)) Mark.X) with
    | some i => some i
    | none =>
      if cellAt b 4 == none then some 4
      else
        match [0, 2, 6, 8].find? (fun i => cellAt b i == none) with
        | some i => some i
        | none => (List.range 9).find? (fun i => cellAt b i == none)

/-- The game mode: `'PVP'` or `'AI'`. -/
inductive Mode
  | PVP
  | AI
deriving DecidableEq

/-- Who the winner status line names: `Player 1`, `Player 2` or `AI`. -/
inductive PlayerName
  | player1
  | player2
  | ai
deriving DecidableEq

/-- The distinct status strings the source assigns to `status`:
`''`, `"It is a draw"`-style draw message, the winner message with the
computed name, `"Your turn (X)"`, `"AI thinking..."`, and the
two-player turn message parameterised by whose turn it is. -/
inductive StatusMsg
  | empty
  | drawMsg
  | winnerMsg (p : PlayerName)
  | yourTurnX
  | thinkingMsg
  | turnMsg (xIsNext : Bool)
deriving DecidableEq

/-- The React component state of `App` (App.js lines 27-35). -/
structure AppState where
  board : List Cell
  xIsNext : Bool
  gameMode : Mode
  isGameActive : Bool
  status : StatusMsg
  winnerLine : List Nat
  aiThinking : Bool
deriving DecidableEq

/-- The initial component state (App.js lines 27-35). -/
def initApp : AppState :=
  { board := List.replicate 9 none
    xIsNext := true
    gameMode := Mode.PVP
    isGameActive := true
    status := StatusMsg.empty
    winnerLine := []
    aiThinking := false }

/-- `handleRestart` (App.js lines 61-68). -/
def handleRestart (s : AppState) : AppState :=
  { s with
    board := List.replicate 9 none
    xIsNext := true
    isGameActive := true
    winnerLine := []
    status := StatusMsg.empty
    aiThinking := false }

/-- `handleClick` (App.js lines 72-80): reject when the game is inactive,
the cell is occupied, or it is the computer's turn in `'AI'` mode;
otherwise place the mover's mark and flip the turn.  The UI only ever
calls this with `i` between 0 and 8 (the nine rendered squares and the
indices `findBestMove` returns). -/
def handleClick (s : AppState) (i : Nat) : AppState :=
  if s.isGameActive = false ∨ cellAt s.board i ≠ none ∨
      (s.gameMode = Mode.AI ∧ s.xIsNext = false) then
    s
  else
    { s with
      board := s.board.set i (some (if s.xIsNext then Mark.X else Mark.O))
      xIsNext := !s.xIsNext }

/-- The state updates performed by the `useEffect` body
(App.js lines 110-135): derive the game status from the board, and when in
`'AI'` mode on the computer's turn with the game undecided, flag the
computer as thinking. -/
def runEffect (s : AppState) : AppState :=
  match calculateWinner s.board with
  | some r =>
    { s with
      isGameActive := false
      winnerLine := r.line
      status :=
        match r.winner with
        | Winner.draw => StatusMsg.drawMsg
        | Winner.mark m =>
          StatusMsg.winnerMsg
            (match m, s.gameMode with
             | Mark.X, _ => PlayerName.player1
             | Mark.O, Mode.PVP => PlayerName.player2
             | Mark.O, Mode.AI => PlayerName.ai) }
  | none =>
    if s.gameMode = Mode.AI then
      if s.xIsNext then
        { s with winnerLine := [], status := StatusMsg.yourTurnX }
      else
        { s with
          winnerLine := []
          status := StatusMsg.thinkingMsg
          aiThinking := true }
    else
      { s with winnerLine := [], status := StatusMsg.turnMsg s.xIsNext }

/-- The condition of App.js line 134 under which the effect arms the
0.55 s computer-move timer. -/
def scheduleCond (s : AppState) : Bool :=
  s.gameMode == Mode.AI && !s.xIsNext && (calculateWinner s.board).isNone

/-- The timer callback (App.js lines 137-143): compute `findBestMove` on
the board, pass it to `handleClick` when non-null, and clear the
thinking flag. -/
def fireTimer (s : AppState) : AppState :=
  let s1 :=
    match findBestMove s.board with
    | some m => handleClick s m
    | none => s
  { s1 with aiThinking := false }

/-- `handleModeChange` (App.js lines 151-154): store the selected mode,
then restart (the restart leaves the mode untouched). -/
def handleModeChange (s : AppState) (m : Mode) : AppState :=
  handleRestart { s with gameMode := m }

/-- The `disabled` expression of the mode `<select>`
(App.js line 194): `!isGameActive && winnerLine.length > 0`. -/
def modeSelectorDisabled (s : AppState) : Bool :=
  !s.isGameActive && decide (s.winnerLine.length > 0)

/-- A browser session: the component state plus whether the computer-move
timer is currently armed.  React's effect dependencies are `board`,
`xIsNext` and `gameMode`; whenever an event changes the rendered state the
effect re-runs, its cleanup cancelling any pending timer. -/
structure Session where
  app : AppState
  pending : Bool
deriving DecidableEq

/-- The UI events that drive the session. -/
inductive Event
  | click (i : Nat)
  | restart
  | modeChange (m : Mode)
  | timerFire
deriving DecidableEq

/-- One event step of the session.  A rejected click changes no state, so
no re-render happens and a pending timer survives; every state-changing
handler triggers a re-render, whose effect cleanup cancels the old timer
and whose body re-arms one exactly when `scheduleCond` holds.  A firing
timer runs its callback; it only re-triggers the effect when it changed
one of the effect dependencies. -/
def Session.step (sess : Session) : Event → Session
  | Event.click i =>
    let a := handleClick sess.app i
    if a = sess.app then sess
    else
      let a2 := runEffect a
      ⟨a2, scheduleCond a2⟩
  | Event.restart =>
    let a2 := runEffect (handleRestart sess.app)
    ⟨a2, scheduleCond a2⟩
  | Event.modeChange m =>
    let a2 := runEffect (handleModeChange sess.app m)
    ⟨a2, scheduleCond a2⟩
  | Event.timerFire =>
    if sess.pending then
      let a := fireTimer sess.app
      if a.board = sess.app.board ∧ a.xIsNext = sess.app.xIsNext ∧
          a.gameMode = sess.app.gameMode then
        ⟨a, false⟩
      else
        let a2 := runEffect a
        ⟨a2, scheduleCond a2⟩
    else sess

/-- Spec-side predicate for the Board Evaluator: a line all three of whose
indexed cells are non-empty and identical ("if all three indexed cells are
non-empty and identical"). -/
def lineWon (b : List Cell) : Nat × Nat × Nat → Bool
  | (x, y, z) =>
    match cellAt b x with
    | some m => cellAt b y == some m && cellAt b z == some m
    | none => false

theorem scanLines_eq_none (b : List Cell) (L : List (Nat × Nat × Nat))
    (h : L.find? (lineWon b) = none) : scanLines b L = none := by
  induction L with
  | nil => rfl
  | cons t rest ih =>
    obtain ⟨x, y, z⟩ := t
    by_cases hw : lineWon b (x, y, z)
    · rw [List.find?_cons_of_pos _ hw] at h
      exact absurd h (by simp)
    · rw [List.find?_cons_of_neg _ hw] at h
      have hrest := ih h
      simp only [scanLines]
      split
      next m hx =>
        rw [if_neg]
        · exact hrest
        · intro hyz
          simp [lineWon, hx, hyz.1, hyz.2] at hw
      next hx => exact hrest

theorem scanLines_eq_some (b : List Cell) (L : List (Nat × Nat × Nat))
    (x y z : Nat) (m : Mark)
    (h : L.find? (lineWon b) = some (x, y, z)) (hx : cellAt b x = some m) :
    scanLines b L = some ⟨Winner.mark m, [x, y, z]⟩ := by
  induction L with
  | nil => simp at h
  | cons t rest ih =>
    obtain ⟨x0, y0, z0⟩ := t
    by_cases hw : lineWon b (x0, y0, z0)
    · rw [List.find?_cons_of_pos _ hw] at h
      simp only [Option.some.injEq, Prod.mk.injEq] at h
      obtain ⟨rfl, rfl, rfl⟩ := h
      simp only [lineWon, hx, Bool.and_eq_true, beq_iff_eq] at hw
      simp only [scanLines, hx]
      rw [if_pos ⟨hw.1, hw.2⟩]
    · rw [List.find?_cons_of_neg _ hw] at h
      have hrest := ih h
      simp only [scanLines]
      split
      next m0 hx0 =>
        rw [if_neg]
        · exact hrest
        · intro hyz
          simp [lineWon, hx0, hyz.1, hyz.2] at hw
      next hx0 => exact hrest

theorem scanLines_some_shape (b : List Cell) (L : List (Nat × Nat × Nat))
    (r : GameResult) (h : scanLines b L = some r) :
    (∃ m, r.winner = Winner.mark m) ∧ r.line.length = 3 := by
  induction L with
  | nil => simp [scanLines] at h
  | cons t rest ih =>
    obtain ⟨x, y, z⟩ := t
    simp only [scanLines] at h
    split at h
    next m hx =>
      split at h
      · injection h with h
        subst h
        exact ⟨⟨m, rfl⟩, rfl⟩
      · exact ih h
    next hx => exact ih h

/-- C2: for every board, `calculateWinner` scans the 8 fixed lines in the
order rows, columns, diagonals; when some line has all three cells
non-empty and equal it returns a win carrying that mark and the first such
line in scan order; otherwise it returns a draw (with no line) when no
cell is empty, and no result when some cell is empty.  Totality and the
absence of mutation are inherent: `calculateWinner` is a total pure
function of the board. -/
theorem calculateWinner_spec (b : List Cell) :
    (∀ x y z m, lines.find? (lineWon b) = some (x, y, z) →
      cellAt b x = some m →
      calculateWinner b = some ⟨Winner.mark m, [x, y, z]⟩) ∧
    (lines.find? (lineWon b) = none → (none : Cell) ∈ b →
      calculateWinner b = none) ∧
    (lines.find? (lineWon b) = none → (none : Cell) ∉ b →
      calculateWinner b = some ⟨Winner.draw, []⟩) := by
  refine ⟨?_, ?_, ?_⟩
  · intro x y z m h hx
    unfold calculateWinner
    rw [scanLines_eq_some b lines x y z m h hx]
  · intro h hm
    unfold calculateWinner
    rw [scanLines_eq_none b lines h, if_pos hm]
  · intro h hm
    unfold calculateWinner
    rw [scanLines_eq_none b lines h, if_neg hm]

theorem calculateWinner_spec_witness :
    calculateWinner
        [some Mark.X, some Mark.X, some Mark.X,
         some Mark.O, some Mark.O, none, none, none, none] =
      some ⟨Winner.mark Mark.X, [0, 1, 2]⟩ ∧
    calculateWinner
        [some Mark.X, none, none, some Mark.O, none, none, none, none, none] =
      none ∧
    calculateWinner
        [some Mark.X, some Mark.O, some Mark.X,
         some Mark.O, some Mark.X, some Mark.O,
         some Mark.O, some Mark.X, some Mark.O] =
      some ⟨Winner.draw, []⟩ :=
  ⟨(calculateWinner_spec _).1 0 1 2 Mark.X (by decide) (by decide),
   (calculateWinner_spec _).2.1 (by decide) (by decide),
   (calculateWinner_spec _).2.2 (by decide) (by decide)⟩

/-- C5: a click on an occupied cell, a click while the game is inactive,
and a click during the computer's turn in `'AI'` mode are each rejected as
complete no-ops: `handleClick` returns the state unchanged. -/
theorem handleClick_rejected_noop (s : AppState) (i : Nat)
    (h : s.isGameActive = false ∨ cellAt s.board i ≠ none ∨
      (s.gameMode = Mode.AI ∧ s.xIsNext = false)) :
    handleClick s i = s := by
  unfold handleClick
  rw [if_pos h]

theorem handleClick_rejected_noop_witness :
    handleClick
        { initApp with
          board := (List.replicate 9 none).set 0 (some Mark.X) } 0 =
      { initApp with
        board := (List.replicate 9 none).set 0 (some Mark.X) } :=
  handleClick_rejected_noop _ 0 (by decide)

/-- C9: restart leaves the selected game mode unchanged and resets exactly
the board (to all-empty), the turn indicator (X first), the game-active
flag, the winning-line highlight, the status message and the AI-thinking
flag; every other field, in particular `gameMode`, keeps its value. -/
theorem handleRestart_frame (s : AppState) :
    (handleRestart s).gameMode = s.gameMode ∧
    handleRestart s =
      { s with
        board := List.replicate 9 none
        xIsNext := true
        isGameActive := true
        winnerLine := []
        status := StatusMsg.empty
        aiThinking := false } :=
  ⟨rfl, rfl⟩

/-- C8: the Move Selector is deterministic: two calls on identical board
snapshots return the identical result; `findBestMove` is a pure function
of the board, with no source of randomness. -/
theorem findBestMove_deterministic (b1 b2 : List Cell) (h : b1 = b2) :
    findBestMove b1 = findBestMove b2 := by
  rw [h]

theorem findBestMove_deterministic_witness :
    findBestMove (List.replicate 9 none) =
      findBestMove (List.replicate 9 none) :=
  findBestMove_deterministic (List.replicate 9 none)
    (List.replicate 9 none) rfl

theorem cellAt_eq_getElem? (b : List Cell) (i : Nat) :
    cellAt b i = (b[i]?).getD none := by
  simp [cellAt]

theorem mem_none_iff_cellAt (b : List Cell) (h9 : b.length = 9) :
    (none : Cell) ∈ b ↔ ∃ i, i < 9 ∧ cellAt b i = none := by
  constructor
  · intro hm
    obtain ⟨n, hlt, hval⟩ := List.mem_iff_getElem.mp hm
    refine ⟨n, h9 ▸ hlt, ?_⟩
    rw [cellAt_eq_getElem?, List.getElem?_eq_getElem hlt, hval]
    rfl
  · rintro ⟨i, hi, hc⟩
    have hib : i < b.length := h9 ▸ hi
    rw [cellAt_eq_getElem?, List.getElem?_eq_getElem hib] at hc
    simp only [Option.getD_some] at hc
    exact List.mem_iff_getElem.mpr ⟨i, hib, hc⟩

theorem findBestMove_some_empty (b : List Cell) (i : Nat)
    (h : findBestMove b = some i) : cellAt b i = none ∧ i < 9 := by
  unfold findBestMove at h
  split at h
  next j hj =>
    cases h
    have hp := List.find?_some hj
    simp only [Bool.and_eq_true, beq_iff_eq] at hp
    exact ⟨hp.1, List.mem_range.mp (List.mem_of_find?_eq_some hj)⟩
  next =>
    split at h
    next j hj =>
      cases h
      have hp := List.find?_some hj
      simp only [Bool.and_eq_true, beq_iff_eq] at hp
      exact ⟨hp.1, List.mem_range.mp (List.mem_of_find?_eq_some hj)⟩
    next =>
      split at h
      next hc4 =>
        cases h
        exact ⟨by simpa using hc4, by decide⟩
      next hc4 =>
        split at h
        next j hj =>
          cases h
          have hp := List.find?_some hj
          have hmem := List.mem_of_find?_eq_some hj
          simp only [beq_iff_eq] at hp
          refine ⟨hp, ?_⟩
          simp only [List.mem_cons, List.mem_singleton] at hmem
          rcases hmem with rfl | rfl | rfl | hmem
          · decide
          · decide
          · decide
          · simp only [List.not_mem_nil, or_false] at hmem
            subst hmem
            decide
        next =>
          have hp := List.find?_some h
          simp only [beq_iff_eq] at hp
          exact ⟨hp, List.mem_range.mp (List.mem_of_find?_eq_some h)⟩

/-- C7: `findBestMove` returns `null` exactly on a full board; whenever
the board has an empty cell it returns the index of a cell that is empty
on the input board. -/
theorem findBestMove_empty_cell (b : List Cell) (h9 : b.length = 9) :
    (findBestMove b = none ↔ (none : Cell) ∉ b) ∧
    (∀ i, findBestMove b = some i → cellAt b i = none) := by
  constructor
  · constructor
    · intro hfn hm
      obtain ⟨i, hi, hc⟩ := (mem_none_iff_cellAt b h9).mp hm
      unfold findBestMove at hfn
      split at hfn
      next j hj => exact Option.noConfusion hfn
      next =>
        split at hfn
        next j hj => exact Option.noConfusion hfn
        next =>
          split at hfn
          next hc4 => exact Option.noConfusion hfn
          next hc4 =>
            split at hfn
            next j hj => exact Option.noConfusion hfn
            next =>
              rw [List.find?_eq_none] at hfn
              exact hfn i (List.mem_range.mpr hi) (by simpa using hc)
    · intro hnm
      cases hfb : findBestMove b with
      | none => rfl
      | some i =>
        obtain ⟨hc, hi⟩ := findBestMove_some_empty b i hfb
        exact absurd ((mem_none_iff_cellAt b h9).mpr ⟨i, hi, hc⟩) hnm
  · intro i hi
    exact (findBestMove_some_empty b i hi).1

theorem findBestMove_empty_cell_witness :
    findBestMove (List.replicate 9 none) = some 4 ∧
    cellAt (List.replicate 9 none) 4 = none :=
  ⟨by decide,
   (findBestMove_empty_cell (List.replicate 9 none) (by decide)).2 4
     (by decide)⟩

/-- Spec-modelled Move Selector (§4.2 of the spec), written from the
spec's five priority rules with its `(board, ownMark, opponentMark)`
contract: win now, else block, else center, else first free corner of
`{0, 2, 6, 8}`, else first empty cell in ascending order.  `winningCellFor`
is rule 1/2: the lowest-index empty cell whose hypothetical `m`-placement
makes the Board Evaluator report a win for `m`. -/
def winningCellFor (b : List Cell) (m : Mark) : Option Nat :=
  (List.range 9).find? (fun i =>
    cellAt b i == none && winnerIs (b.set i (some m)) m)

/-- Spec-modelled Move Selector cascade, see `winningCellFor`. -/
def selectMove (b : List Cell) (own opp : Mark) : Option Nat :=
  match winningCellFor b own with
  | some i => some i
  | none =>
    match winningCellFor b opp with
    | some i => some i
    | none =>
      if cellAt b 4 == none then some 4
      else
        match [0, 2, 6, 8].find? (fun i => cellAt b i == none) with
        | some i => some i
        | none => (List.range 9).find? (fun i => cellAt b i == none)

/-- C3: on any board with an empty cell, `findBestMove` implements the
spec's five-rule priority cascade instantiated with own mark `O` and
opponent mark `X`; in particular, whenever some empty cell completes an
`O` win, the first such cell is returned, even when a block or center
move is also available. -/
theorem findBestMove_priority (b : List Cell) (_h : (none : Cell) ∈ b) :
    findBestMove b = selectMove b Mark.O Mark.X ∧
    (∀ i, winningCellFor b Mark.O = some i → findBestMove b = some i) := by
  refine ⟨rfl, ?_⟩
  intro i hi
  simp only [winningCellFor] at hi
  unfold findBestMove
  rw [hi]

theorem findBestMove_priority_witness :
    findBestMove
        [some Mark.O, some Mark.O, none,
         some Mark.X, some Mark.X, none, none, none, none] =
      selectMove
        [some Mark.O, some Mark.O, none,
         some Mark.X, some Mark.X, none, none, none, none] Mark.O Mark.X ∧
    findBestMove
        [some Mark.O, some Mark.O, none,
         some Mark.X, some Mark.X, none, none, none, none] = some 2 :=
  ⟨(findBestMove_priority _ (by decide)).1,
   (findBestMove_priority _ (by decide)).2 2 (by decide)⟩

theorem runEffect_of_restart (s : AppState) :
    (runEffect (handleRestart s)).board = List.replicate 9 none ∧
    (runEffect (handleRestart s)).xIsNext = true ∧
    (runEffect (handleRestart s)).isGameActive = true ∧
    scheduleCond (runEffect (handleRestart s)) = false := by
  have hcw :
      calculateWinner
        [none, none, none, none, none, none, none, none, none] = none := by
    decide
  cases hg : s.gameMode <;>
    simp [runEffect, handleRestart, scheduleCond, hcw, hg]

/-- C1 fails on the code: in `'AI'` mode, after the human's accepted `X`
move on the empty board, the effect arms the timer and `findBestMove`
selects cell 4, but the timer's `handleClick(4)` is rejected by the very
guard `gameMode === 'AI' && !xIsNext` of `handleClick` (App.js line 73):
after the timer fires the board still carries only the human's `X`, no
`O` was placed anywhere, and the turn indicator still points at the
computer.  The computer's move is never applied. -/
theorem ai_move_never_applied :
    (Session.step
        (Session.step ⟨initApp, false⟩ (Event.modeChange Mode.AI))
        (Event.click 0)).pending = true ∧
    findBestMove
        (Session.step
          (Session.step ⟨initApp, false⟩ (Event.modeChange Mode.AI))
          (Event.click 0)).app.board = some 4 ∧
    (Session.step
        (Session.step
          (Session.step ⟨initApp, false⟩ (Event.modeChange Mode.AI))
          (Event.click 0))
        Event.timerFire).app.board =
      (List.replicate 9 none).set 0 (some Mark.X) ∧
    ((Session.step
        (Session.step
          (Session.step ⟨initApp, false⟩ (Event.modeChange Mode.AI))
          (Event.click 0))
        Event.timerFire).app.board.count (some Mark.O)) = 0 ∧
    (Session.step
        (Session.step
          (Session.step ⟨initApp, false⟩ (Event.modeChange Mode.AI))
          (Event.click 0))
        Event.timerFire).app.xIsNext = false := by
  decide

/-- C4: an explicit restart (and likewise a mode change) resets the
session: empty board, `X` to move, game active, and no pending scheduled
computer move — the effect re-run cancels any timer armed before the
reset, and `scheduleCond` does not re-arm one because it is `X`'s turn,
so a stale timer firing after the reset is a no-op on the session. -/
theorem restart_cancels_pending (sess : Session) (m : Mode) :
    ((sess.step Event.restart).app.board = List.replicate 9 none ∧
     (sess.step Event.restart).app.xIsNext = true ∧
     (sess.step Event.restart).app.isGameActive = true ∧
     (sess.step Event.restart).pending = false ∧
     (sess.step Event.restart).step Event.timerFire =
       sess.step Event.restart) ∧
    ((sess.step (Event.modeChange m)).app.board = List.replicate 9 none ∧
     (sess.step (Event.modeChange m)).app.xIsNext = true ∧
     (sess.step (Event.modeChange m)).app.isGameActive = true ∧
     (sess.step (Event.modeChange m)).pending = false) := by
  obtain ⟨hb1, hx1, ha1, hs1⟩ := runEffect_of_restart sess.app
  obtain ⟨hb2, hx2, ha2, hs2⟩ :=
    runEffect_of_restart { sess.app with gameMode := m }
  refine ⟨⟨hb1, hx1, ha1, hs1, ?_⟩, hb2, hx2, ha2, hs2⟩
  show Session.step
    ⟨runEffect (handleRestart sess.app),
     scheduleCond (runEffect (handleRestart sess.app))⟩ Event.timerFire = _
  simp only [Session.step, hs1]
  rfl

theorem calculateWinner_mark_line (b : List Cell) (r : GameResult) (m : Mark)
    (h : calculateWinner b = some r) (hm : r.winner = Winner.mark m) :
    r.line.length = 3 := by
  unfold calculateWinner at h
  split at h
  next r0 hs =>
    injection h with h
    subst h
    exact (scanLines_some_shape b lines r0 hs).2
  next hs =>
    split at h
    · exact Option.noConfusion h
    · injection h with h
      subst h
      exact absurd hm (by simp)

theorem calculateWinner_draw_line (b : List Cell) (r : GameResult)
    (h : calculateWinner b = some r) (hd : r.winner = Winner.draw) :
    r.line = [] := by
  unfold calculateWinner at h
  split at h
  next r0 hs =>
    injection h with h
    subst h
    obtain ⟨⟨m, hm⟩, _⟩ := scanLines_some_shape b lines r0 hs
    rw [hm] at hd
    exact absurd hd (by simp)
  next hs =>
    split at h
    · exact Option.noConfusion h
    · injection h with h
      subst h
      rfl

/-- C10: the mode selector is disabled exactly when the game is inactive
and the stored winning line is non-empty; after the effect processes a
board on which `calculateWinner` reports a mark's win, the selector is
disabled, while after a draw (whose result carries an empty line) it
stays enabled even though the game became inactive, and changing the mode
still resets the game (empty board, game active, `X` first, new mode
stored). -/
theorem modeSelector_spec (s : AppState) :
    (modeSelectorDisabled s = true ↔
      (s.isGameActive = false ∧ s.winnerLine ≠ [])) ∧
    (∀ r m, calculateWinner s.board = some r → r.winner = Winner.mark m →
      modeSelectorDisabled (runEffect s) = true) ∧
    (∀ r, calculateWinner s.board = some r → r.winner = Winner.draw →
      modeSelectorDisabled (runEffect s) = false ∧
      (runEffect s).isGameActive = false) ∧
    (∀ m, (handleModeChange s m).board = List.replicate 9 none ∧
      (handleModeChange s m).isGameActive = true ∧
      (handleModeChange s m).xIsNext = true ∧
      (handleModeChange s m).gameMode = m) := by
  refine ⟨?_, ?_, ?_, ?_⟩
  · simp [modeSelectorDisabled, List.length_pos, Bool.not_eq_true',
      and_comm]
  · intro r m h hm
    have h3 := calculateWinner_mark_line s.board r m h hm
    simp [runEffect, h, modeSelectorDisabled, h3]
  · intro r h hd
    have h0 := calculateWinner_draw_line s.board r h hd
    simp [runEffect, h, modeSelectorDisabled, h0]
  · intro m
    exact ⟨rfl, rfl, rfl, rfl⟩

theorem modeSelector_spec_witness :
    modeSelectorDisabled
        (runEffect
          { initApp with
            board :=
              [some Mark.X, some Mark.X, some Mark.X,
               some Mark.O, some Mark.O, none, none, none, none] }) =
      true ∧
    modeSelectorDisabled
        (runEffect
          { initApp with
            board :=
              [some Mark.X, some Mark.O, some Mark.X,
               some Mark.O, some Mark.X, some Mark.O,
               some Mark.O, some Mark.X, some Mark.O] }) =
      false ∧
    (handleModeChange initApp Mode.AI).gameMode = Mode.AI :=
  ⟨(modeSelector_spec _).2.1 ⟨Winner.mark Mark.X, [0, 1, 2]⟩ Mark.X
      (by decide) rfl,
   ((modeSelector_spec _).2.2.1 ⟨Winner.draw, []⟩ (by decide) rfl).1,
   ((modeSelector_spec _).2.2.2 Mode.AI).2.2.2⟩

/-- The number of cells of the board carrying mark `m`. -/
def countMark (b : List Cell) (m : Mark) : Nat :=
  b.count (some m)

theorem runEffect_board_turn (s : AppState) :
    (runEffect s).board = s.board ∧ (runEffect s).xIsNext = s.xIsNext := by
  unfold runEffect
  split
  · exact ⟨rfl, rfl⟩
  · split
    · split
      · exact ⟨rfl, rfl⟩
      · exact ⟨rfl, rfl⟩
    · exact ⟨rfl, rfl⟩

theorem count_set_of_none (b : List Cell) (i : Nat) (hi : i < b.length)
    (he : cellAt b i = none) (m m' : Mark) :
    (b.set i (some m)).count (some m')
      = b.count (some m') + (if m = m' then 1 else 0) := by
  induction b generalizing i with
  | nil => exact absurd hi (by simp)
  | cons hd tl ih =>
    cases i with
    | zero =>
      have hhd : hd = none := by simpa [cellAt] using he
      subst hhd
      simp only [List.set_cons_zero, List.count_cons, List.count_nil]
      have hn : ((none : Cell) == some m') = false := by simp
      rw [hn]
      have hsome : ((some m : Cell) == some m') = (if m = m' then true else false) := by
        by_cases hmm : m = m'
        · simp [hmm]
        · simp [hmm]
      rw [hsome]
      by_cases hmm : m = m'
      · simp [hmm]
      · simp [hmm]
    | succ n =>
      have he' : cellAt tl n = none := by simpa [cellAt] using he
      have hi' : n < tl.length := by simpa using Nat.lt_of_succ_lt_succ hi
      simp only [List.set_cons_succ, List.count_cons, ih n hi' he']
      ring

theorem handleClick_length (s : AppState) (i : Nat) :
    (handleClick s i).board.length = s.board.length := by
  unfold handleClick
  split
  · rfl
  · simp

theorem handleClick_inv (s : AppState) (i : Nat) (hi : i < 9)
    (hlen : s.board.length = 9)
    (hxt : s.xIsNext = true →
      countMark s.board Mark.X = countMark s.board Mark.O)
    (hxf : s.xIsNext = false →
      countMark s.board Mark.X = countMark s.board Mark.O + 1) :
    (handleClick s i).board.length = 9 ∧
    ((handleClick s i).xIsNext = true →
      countMark (handleClick s i).board Mark.X
        = countMark (handleClick s i).board Mark.O) ∧
    ((handleClick s i).xIsNext = false →
      countMark (handleClick s i).board Mark.X
        = countMark (handleClick s i).board Mark.O + 1) := by
  unfold handleClick
  split
  next hg => exact ⟨hlen, hxt, hxf⟩
  next hg =>
    push_neg at hg
    obtain ⟨-, hcell, -⟩ := hg
    have hib : i < s.board.length := hlen ▸ hi
    constructor
    · simpa using hlen
    · cases hx : s.xIsNext with
      | true =>
        have hEq := hxt hx
        simp only [hx]
        constructor
        · intro hcontra
          simp at hcontra
        · intro _
          show countMark (s.board.set i (some Mark.X)) Mark.X
            = countMark (s.board.set i (some Mark.X)) Mark.O + 1
          unfold countMark
          unfold countMark at hEq
          rw [count_set_of_none s.board i hib hcell Mark.X Mark.X,
            count_set_of_none s.board i hib hcell Mark.X Mark.O]
          simp [hEq]
      | false =>
        have hEq := hxf hx
        simp only [hx]
        constructor
        · intro _
          show countMark (s.board.set i (some Mark.O)) Mark.X
            = countMark (s.board.set i (some Mark.O)) Mark.O
          unfold countMark
          unfold countMark at hEq
          rw [count_set_of_none s.board i hib hcell Mark.O Mark.X,
            count_set_of_none s.board i hib hcell Mark.O Mark.O]
          simp [hEq]
        · intro hcontra
          simp at hcontra

/-- The session states reachable from a restart via the event loop:
base case any restart (or mode change, which restarts), then accepted or
rejected clicks on the nine squares and timer firings, each followed by
the effect re-deriving the status. -/
inductive Reachable : AppState → Prop
  | restart (s : AppState) : Reachable (runEffect (handleRestart s))
  | modeChange (s : AppState) (m : Mode) : Reachable s →
      Reachable (runEffect (handleModeChange s m))
  | click (s : AppState) (i : Nat) : Reachable s → i < 9 →
      Reachable (runEffect (handleClick s i))
  | timer (s : AppState) : Reachable s →
      Reachable (runEffect (fireTimer s))

theorem reachable_aux (s : AppState) (h : Reachable s) :
    s.board.length = 9 ∧
    (s.xIsNext = true →
      countMark s.board Mark.X = countMark s.board Mark.O) ∧
    (s.xIsNext = false →
      countMark s.board Mark.X = countMark s.board Mark.O + 1) := by
  induction h with
  | restart s0 =>
    obtain ⟨hb, hx⟩ := runEffect_board_turn (handleRestart s0)
    rw [hb, hx]
    refine ⟨by simp [handleRestart], ?_, ?_⟩
    · intro _
      simp [handleRestart, countMark]
    · intro hcontra
      simp [handleRestart] at hcontra
  | modeChange s0 m hr ih =>
    obtain ⟨hb, hx⟩ := runEffect_board_turn (handleModeChange s0 m)
    rw [hb, hx]
    refine ⟨by simp [handleModeChange, handleRestart], ?_, ?_⟩
    · intro _
      simp [handleModeChange, handleRestart, countMark]
    · intro hcontra
      simp [handleModeChange, handleRestart] at hcontra
  | click s0 i hr hi ih =>
    obtain ⟨hlen, hxt, hxf⟩ := ih
    obtain ⟨hb, hx⟩ := runEffect_board_turn (handleClick s0 i)
    rw [hb, hx]
    exact handleClick_inv s0 i hi hlen hxt hxf
  | timer s0 hr ih =>
    obtain ⟨hlen, hxt, hxf⟩ := ih
    obtain ⟨hb, hx⟩ := runEffect_board_turn (fireTimer s0)
    rw [hb, hx]
    unfold fireTimer
    cases hfb : findBestMove s0.board with
    | none => exact ⟨hlen, hxt, hxf⟩
    | some j =>
      have hj9 := (findBestMove_some_empty s0.board j hfb).2
      exact handleClick_inv s0 j hj9 hlen hxt hxf

/-- C6: in every session state reachable from a restart, each cell holds
at most one mark (it is empty, an `X`, or an `O`), the `X` count is never
below the `O` count, and the two counts differ by at most one — `X` is
always the mark placed first after a restart. -/
theorem session_invariant (s : AppState) (h : Reachable s) :
    countMark s.board Mark.O ≤ countMark s.board Mark.X ∧
    countMark s.board Mark.X ≤ countMark s.board Mark.O + 1 ∧
    (∀ i, cellAt s.board i = none ∨ cellAt s.board i = some Mark.X ∨
      cellAt s.board i = some Mark.O) := by
  obtain ⟨hlen, hxt, hxf⟩ := reachable_aux s h
  refine ⟨?_, ?_, ?_⟩
  · cases hx : s.xIsNext with
    | true => rw [hxt hx]
    | false => rw [hxf hx]; omega
  · cases hx : s.xIsNext with
    | true => rw [hxt hx]; omega
    | false => rw [hxf hx]
  · intro i
    cases hc : cellAt s.board i with
    | none => exact Or.inl rfl
    | some m =>
      cases m with
      | X => exact Or.inr (Or.inl rfl)
      | O => exact Or.inr (Or.inr rfl)

theorem session_invariant_witness :
    countMark (runEffect (handleRestart initApp)).board Mark.O ≤
      countMark (runEffect (handleRestart initApp)).board Mark.X ∧
    countMark (runEffect (handleRestart initApp)).board Mark.X ≤
      countMark (runEffect (handleRestart initApp)).board Mark.O + 1 :=
  ⟨(session_invariant _ (Reachable.restart initApp)).1,
   (session_invariant _ (Reachable.restart initApp)).2.1⟩

end TicTacToe
